import Mathlib

/-!
Verification of the flac2alac batch converter (src/main.rs) against its
natural-language specification.

The embedding models:
* paths as lists of components (`RPath`), with Rust's file-name / stem /
  extension splitting reproduced at the character level;
* the external world (ffmpeg availability, destination existence, the
  operator's stdin line, directory creation, transcode and PCM-decode
  results) as an explicit `World` record;
* the filesystem walk as an explicit `FS` record;
* side effects (blocking prompt reads, `create_dir_all`, transcoder and
  decoder subprocess invocations) as an `Effects` trace returned next to
  each task's `Except`-valued outcome.
-/

namespace Flac2Alac

/-- ASCII lower-casing of one character, as done byte-wise by Rust's
`eq_ignore_ascii_case`. -/
def asciiLowerChar (c : Char) : Char :=
  if 'A' ≤ c ∧ c ≤ 'Z' then Char.ofNat (c.toNat + 32) else c

/-- Rust `str::eq_ignore_ascii_case`. -/
def eqIgnoreAsciiCase (a b : String) : Bool :=
  a.data.map asciiLowerChar = b.data.map asciiLowerChar

/-- Split a character list around its last dot: `some (before, after)` when a
dot occurs, `none` otherwise.  Mirrors the `rsplitn(2, '.')` in Rust's
`split_file_at_dot`. -/
def splitAtLastDot : List Char → Option (List Char × List Char)
  | [] => none
  | c :: cs =>
    match splitAtLastDot cs with
    | some (b, a) => some (c :: b, a)
    | none => if c = '.' then some ([], cs) else none

/-- Rust `Path::file_stem` restricted to one file-name component
(`split_file_at_dot` with the `or` of stem and whole name). -/
def fileStemName (n : String) : Option String :=
  if n = ".." then some n
  else
    match splitAtLastDot n.data with
    | some ([], _) => some n
    | some (b, _) => some (String.mk b)
    | none => some n

/-- Rust `Path::extension` restricted to one file-name component: `some` only
when the name has a dot with a nonempty part before it. -/
def extName (n : String) : Option String :=
  if n = ".." then none
  else
    match splitAtLastDot n.data with
    | some ([], _) => none
    | some (_, a) => some (String.mk a)
    | none => none

/-- A filesystem path, as the list of its components.  The embedding works
on Rust's *normalized* component view: components are assumed to be normal
components (never `.`, which Rust's path parser strips, and `..` only where
the program itself produces it as a final component).  Theorems whose paths
could leave this fragment — a `with_file_name` pushing a `.` or `..` stem,
which Rust would re-normalize on the next parse — exclude those stems by
hypothesis. -/
structure RPath where
  components : List String
deriving DecidableEq

/-- Rust `Path::file_name`: the last component, unless it is `..`. -/
def RPath.fileName (p : RPath) : Option String :=
  match p.components.getLast? with
  | none => none
  | some n => if n = ".." then none else some n

/-- Rust `Path::file_stem`. -/
def RPath.fileStem (p : RPath) : Option String :=
  p.fileName.bind fileStemName

/-- Rust `Path::extension`. -/
def RPath.extension (p : RPath) : Option String :=
  p.fileName.bind extName

/-- Rust `Path::with_file_name`: pop the file name when there is one, then
push the new name. -/
def RPath.withFileName (p : RPath) (n : String) : RPath :=
  match p.fileName with
  | some _ => ⟨p.components.dropLast ++ [n]⟩
  | none => ⟨p.components ++ [n]⟩

/-- Rust `Path::join` with a relative right-hand side. -/
def RPath.join (p q : RPath) : RPath :=
  ⟨p.components ++ q.components⟩

/-- Rust `Path::set_extension` with a nonempty extension: truncate the file
name to its stem and append `"." ++ e`; no-op when there is no file stem.
Faithful on paths whose last component is a normal component or `..`; a
trailing `.` component (possible only via `withFileName` with stem `.`)
would be re-normalized by Rust's parser and is excluded by hypothesis where
it could arise. -/
def RPath.setExtension (p : RPath) (e : String) : RPath :=
  match p.fileStem with
  | none => p
  | some stem => p.withFileName (stem ++ "." ++ e)

/-- Rust `Path::strip_prefix` on components. -/
def RPath.stripRoot (p root : RPath) : Option RPath :=
  if root.components.isPrefixOf p.components then
    some ⟨p.components.drop root.components.length⟩
  else none

/-- The discovery filter of `collect_tasks`: the extension, when present,
compares equal to "flac" ignoring ASCII case. -/
def matchesFlac (p : RPath) : Bool :=
  match p.extension with
  | some e => eqIgnoreAsciiCase e "flac"
  | none => false

/-- The overwrite policy (`OverwriteMode` in src/main.rs). -/
inductive OverwriteMode where
  | Skip
  | Prompt
  | Replace
deriving DecidableEq

/-- The filesystem as seen by discovery: which paths are regular files,
which are directories, and the (flattened, symlink-followed) `WalkDir`
enumeration of a directory. -/
structure FS where
  isFile : RPath → Bool
  isDir : RPath → Bool
  walk : RPath → List RPath

/-- The external world seen by one run: ffmpeg availability, destination
existence, the operator's raw stdin line, whether `create_dir_all` succeeds,
whether the transcode subprocess exits zero, and the PCM digest produced by
the decode subprocess (`none` = nonzero exit). -/
structure World where
  ffmpegAvailable : Bool
  outExists : RPath → Bool
  stdinLine : String
  mkdirOk : Bool
  convertOk : RPath → RPath → Bool
  decodeResult : RPath → Option (List Nat)

/-- Side effects performed while processing one task. -/
structure Effects where
  promptRead : Bool
  mkdirCalled : Bool
  convertCalled : Bool
  decodeCalls : Nat
deriving DecidableEq

/-- No side effect yet. -/
def noEffects : Effects := ⟨false, false, false, 0⟩

/-- Rust `fn default_out_path` of src/main.rs. -/
def default_out_path (file : RPath) (out_root : Option RPath) :
    Except String RPath :=
  match file.fileStem with
  | none => .error "Nom de fichier invalide"
  | some stem =>
    let out := match out_root with
      | some dir => dir.join ⟨[stem]⟩
      | none => file.withFileName stem
    .ok (out.setExtension "m4a")

/-- Rust `fn map_to_out` of src/main.rs. -/
def map_to_out (file in_root : RPath) (out_root : Option RPath) :
    Except String RPath :=
  match out_root with
  | some r =>
    let rel := (file.stripRoot in_root).getD file
    .ok ((r.join rel).setExtension "m4a")
  | none => default_out_path file none

/-- The loop body of `collect_tasks` over the `WalkDir` enumeration. -/
def walkCollect (fs : FS) (input : RPath) (out_root : Option RPath) :
    List RPath → Except String (List (RPath × RPath))
  | [] => .ok []
  | p :: rest =>
    if fs.isFile p && matchesFlac p then
      match map_to_out p input out_root with
      | .error e => .error e
      | .ok o =>
        match walkCollect fs input out_root rest with
        | .error e => .error e
        | .ok v => .ok ((p, o) :: v)
    else walkCollect fs input out_root rest

/-- Rust `fn collect_tasks` of src/main.rs. -/
def collect_tasks (fs : FS) (input : RPath) (out_root : Option RPath) :
    Except String (List (RPath × RPath)) :=
  if fs.isFile input then
    if matchesFlac input then
      match default_out_path input out_root with
      | .error e => .error e
      | .ok o => .ok [(input, o)]
    else .ok []
  else if fs.isDir input then
    walkCollect fs input out_root (fs.walk input)
  else .ok []

/-- Rust `fn ensure_ffmpeg_available` of src/main.rs. -/
def ensure_ffmpeg_available (w : World) : Except String Unit :=
  if w.ffmpegAvailable then .ok ()
  else .error "FFmpeg introuvable dans le PATH. Installe-le puis réessaie."

/-- Rust `char::is_whitespace`: the Unicode `White_Space` property, i.e.
U+0009..U+000D, U+0020, U+0085, U+00A0, U+1680, U+2000..U+200A, U+2028,
U+2029, U+202F, U+205F and U+3000. -/
def isRustWhitespace (c : Char) : Bool :=
  (9 ≤ c.toNat ∧ c.toNat ≤ 13) ∨ c.toNat = 32 ∨ c.toNat = 133 ∨
  c.toNat = 160 ∨ c.toNat = 5760 ∨ (8192 ≤ c.toNat ∧ c.toNat ≤ 8202) ∨
  c.toNat = 8232 ∨ c.toNat = 8233 ∨ c.toNat = 8239 ∨ c.toNat = 8287 ∨
  c.toNat = 12288

/-- Rust `str::trim`: Unicode whitespace stripped from both ends, written
with structural recursion so that it evaluates. -/
def trimString (s : String) : String :=
  String.mk
    (((s.data.dropWhile isRustWhitespace).reverse.dropWhile
        isRustWhitespace).reverse)

/-- The prompt-answer test of `process_one`:
`matches!(buf.trim(), "y" | "Y" | "o" | "O" | "oui" | "Oui")`, applied to the
already-trimmed answer. -/
def isYes (s : String) : Bool :=
  s = "y" ∨ s = "Y" ∨ s = "o" ∨ s = "O" ∨ s = "oui" ∨ s = "Oui"

/-- Rust `fn run_ffmpeg_convert` of src/main.rs: success iff the subprocess exits
zero. -/
def run_ffmpeg_convert (w : World) (input output : RPath) :
    Except String Unit :=
  if w.convertOk input output then .ok ()
  else .error "ffmpeg a échoué"

/-- Rust `fn pcm_sha256_from` of src/main.rs: the digest of the decoded PCM
stream, or an error when the decode subprocess exits nonzero. -/
def pcm_sha256_from (w : World) (input : RPath) : Except String (List Nat) :=
  match w.decodeResult input with
  | some h => .ok h
  | none => .error "ffmpeg a échoué lors du décodage PCM"

/-- Rust `fn verify_bitperfect` of src/main.rs. -/
def verify_bitperfect (w : World) (flac alac : RPath) : Except String Bool :=
  match pcm_sha256_from w flac with
  | .error e => .error e
  | .ok h1 =>
    match pcm_sha256_from w alac with
    | .error e => .error e
    | .ok h2 => .ok (h1 = h2)

/-- Number of decode subprocesses spawned by `verify_bitperfect`: the second
one is spawned only when the first decode succeeded. -/
def decodeInvocations (w : World) (flac : RPath) : Nat :=
  match w.decodeResult flac with
  | none => 1
  | some _ => 2

/-- The tail of `process_one` from the conversion call on: transcode, then
optional verification. -/
def convertAndVerify (w : World) (in_path out_path : RPath) (verify : Bool)
    (eff : Effects) : Except String Unit × Effects :=
  match run_ffmpeg_convert w in_path out_path with
  | .error e => (.error e, { eff with convertCalled := true })
  | .ok _ =>
    if verify then
      match verify_bitperfect w in_path out_path with
      | .error e =>
        (.error e,
         { eff with convertCalled := true,
                    decodeCalls := decodeInvocations w in_path })
      | .ok true =>
        (.ok (),
         { eff with convertCalled := true,
                    decodeCalls := decodeInvocations w in_path })
      | .ok false =>
        (.error "Vérification bit-perfect échouée",
         { eff with convertCalled := true,
                    decodeCalls := decodeInvocations w in_path })
    else (.ok (), { eff with convertCalled := true })

/-- The part of `process_one` after overwrite resolution: the dry-run
short-circuit, then `create_dir_all` on the destination parent, then
`convertAndVerify`. -/
def afterResolve (w : World) (in_path out_path : RPath)
    (verify dry_run : Bool) (eff : Effects) : Except String Unit × Effects :=
  if dry_run then (.ok (), eff)
  else if out_path.components.isEmpty then
    convertAndVerify w in_path out_path verify eff
  else if w.mkdirOk then
    convertAndVerify w in_path out_path verify { eff with mkdirCalled := true }
  else (.error "create_dir_all a échoué", { eff with mkdirCalled := true })

/-- Rust `fn process_one` of src/main.rs. -/
def process_one (w : World) (in_path out_path : RPath)
    (overwrite : OverwriteMode) (verify dry_run : Bool) :
    Except String Unit × Effects :=
  if w.outExists out_path then
    match overwrite with
    | OverwriteMode.Skip => (.ok (), noEffects)
    | OverwriteMode.Prompt =>
      if dry_run then afterResolve w in_path out_path verify dry_run noEffects
      else if isYes (trimString w.stdinLine) then
        afterResolve w in_path out_path verify dry_run
          { noEffects with promptRead := true }
      else (.ok (), { noEffects with promptRead := true })
    | OverwriteMode.Replace =>
      afterResolve w in_path out_path verify dry_run noEffects
  else afterResolve w in_path out_path verify dry_run noEffects

/-- Whether a task outcome is an error. -/
def isErr : Except String Unit → Bool
  | .error _ => true
  | .ok _ => false

/-- Observable trace of one `run_cli` call: how many times the ffmpeg
availability probe ran, the per-task results in task order, and the final
result of the run. -/
structure RunTrace where
  ffmpegChecks : Nat
  results : List (Except String Unit × Effects)
  final : Except String Unit

/-- Rust `fn run_cli` of src/main.rs (the rayon `par_iter().collect()` preserves
task order, so it is modelled as `List.map`). -/
def run_cli (w : World) (fs : FS) (input : RPath) (output : Option RPath)
    (verify : Bool) (overwrite : OverwriteMode) (dry_run : Bool) : RunTrace :=
  match ensure_ffmpeg_available w with
  | .error e => ⟨1, [], .error e⟩
  | .ok _ =>
    match collect_tasks fs input output with
    | .error e => ⟨1, [], .error e⟩
    | .ok tasks =>
      if tasks.isEmpty then ⟨1, [], .error "Aucun fichier .flac trouvé"⟩
      else
        let results :=
          tasks.map fun t => process_one w t.1 t.2 overwrite verify dry_run
        let failed := (results.filter fun r => isErr r.1).length
        ⟨1, results,
          if 0 < failed then
            .error (toString failed ++ " conversion(s) en échec")
          else .ok ()⟩


/-! ## Character-level facts about the stem / extension split -/

lemma splitAtLastDot_none (l : List Char) (h : '.' ∉ l) :
    splitAtLastDot l = none := by
  induction l with
  | nil => rfl
  | cons c cs ih =>
    simp only [List.mem_cons, not_or] at h
    simp [splitAtLastDot, ih h.2, if_neg (Ne.symm h.1)]

lemma splitAtLastDot_append (b t : List Char) (h : '.' ∉ t) :
    splitAtLastDot (b ++ '.' :: t) = some (b, t) := by
  induction b with
  | nil => simp [splitAtLastDot, splitAtLastDot_none t h]
  | cons c cs ih => simp [splitAtLastDot, ih]

lemma ne_dotdot_of_length (n : String) (h : n.data.length ≠ 2) :
    n ≠ ".." := by
  intro he
  apply h
  rw [he]
  rfl

lemma stem_m4a_data (s : String) :
    (s ++ "." ++ "m4a").data = s.data ++ '.' :: ['m', '4', 'a'] := by
  have h1 : ("." : String).data = ['.'] := rfl
  have h2 : ("m4a" : String).data = ['m', '4', 'a'] := rfl
  simp [String.data_append, h1, h2]

lemma stem_m4a_ne_dotdot (s : String) : (s ++ "." ++ "m4a") ≠ ".." := by
  apply ne_dotdot_of_length
  rw [stem_m4a_data]
  simp

lemma extName_stem_m4a (s : String) (hs : s.data ≠ []) :
    extName (s ++ "." ++ "m4a") = some "m4a" := by
  unfold extName
  rw [if_neg (stem_m4a_ne_dotdot s), stem_m4a_data,
    splitAtLastDot_append s.data ['m', '4', 'a'] (by decide)]
  cases hsd : s.data with
  | nil => exact absurd hsd hs
  | cons x xs => rfl

lemma fileStemName_isSome (n : String) : ∃ s, fileStemName n = some s := by
  by_cases h : n = ".."
  · exact ⟨n, by simp [fileStemName, h]⟩
  · rcases hsp : splitAtLastDot n.data with _ | ⟨b, a⟩
    · exact ⟨n, by simp [fileStemName, h, hsp]⟩
    · rcases b with _ | ⟨x, xs⟩
      · exact ⟨n, by simp [fileStemName, h, hsp]⟩
      · exact ⟨String.mk (x :: xs), by simp [fileStemName, h, hsp]⟩

lemma fileStemName_data_ne_nil (n s : String) (hn : n.data ≠ [])
    (h : fileStemName n = some s) : s.data ≠ [] := by
  by_cases hdd : n = ".."
  · rw [fileStemName, if_pos hdd] at h
    cases h
    rw [hdd]
    decide
  · rw [fileStemName, if_neg hdd] at h
    rcases hsp : splitAtLastDot n.data with _ | ⟨b, a⟩
    · rw [hsp] at h
      cases h
      exact hn
    · rcases b with _ | ⟨x, xs⟩
      · rw [hsp] at h
        cases h
        exact hn
      · rw [hsp] at h
        cases h
        simp

lemma extName_some (n e : String) (h : extName n = some e) :
    n ≠ ".." ∧ n.data ≠ [] ∧
      ∃ stem, fileStemName n = some stem ∧ stem.data ≠ [] := by
  by_cases hdd : n = ".."
  · rw [extName, if_pos hdd] at h
    cases h
  · rw [extName, if_neg hdd] at h
    rcases hsp : splitAtLastDot n.data with _ | ⟨b, a⟩
    · rw [hsp] at h
      cases h
    · rcases b with _ | ⟨x, xs⟩
      · rw [hsp] at h
        cases h
      · refine ⟨hdd, ?_, String.mk (x :: xs), ?_, by simp⟩
        · intro hd
          rw [hd] at hsp
          cases hsp
        · rw [fileStemName, if_neg hdd, hsp]

/-! ## Path-level facts -/

lemma fileName_concat (l : List String) (n : String) (hn : n ≠ "..") :
    RPath.fileName ⟨l ++ [n]⟩ = some n := by
  simp [RPath.fileName, List.getLast?_concat, hn]

lemma fileStem_concat (l : List String) (n : String) (hn : n ≠ "..") :
    RPath.fileStem ⟨l ++ [n]⟩ = fileStemName n := by
  simp [RPath.fileStem, fileName_concat l n hn]

lemma extension_concat (l : List String) (n : String) (hn : n ≠ "..") :
    RPath.extension ⟨l ++ [n]⟩ = extName n := by
  simp [RPath.extension, fileName_concat l n hn]

lemma withFileName_concat (l : List String) (n m : String) (hn : n ≠ "..") :
    RPath.withFileName ⟨l ++ [n]⟩ m = ⟨l ++ [m]⟩ := by
  simp [RPath.withFileName, fileName_concat l n hn, List.dropLast_concat]

lemma setExtension_concat (l : List String) (n stem : String) (hn : n ≠ "..")
    (hs : fileStemName n = some stem) :
    RPath.setExtension ⟨l ++ [n]⟩ "m4a" = ⟨l ++ [stem ++ "." ++ "m4a"]⟩ := by
  rw [RPath.setExtension, fileStem_concat l n hn, hs]
  exact withFileName_concat l n (stem ++ "." ++ "m4a") hn

lemma extension_concat_m4a (l : List String) (s : String) (hs : s.data ≠ []) :
    RPath.extension ⟨l ++ [s ++ "." ++ "m4a"]⟩ = some "m4a" := by
  rw [extension_concat l _ (stem_m4a_ne_dotdot s), extName_stem_m4a s hs]

/-- Replacing the extension of a well-formed stem-carrying name by `m4a`
always yields an `m4a` destination name. -/
lemma setExtension_stem_m4a (l : List String) (s : String) (hne : s ≠ "..")
    (hd : s.data ≠ []) :
    ∃ s2, fileStemName s = some s2 ∧
      RPath.setExtension ⟨l ++ [s]⟩ "m4a" = ⟨l ++ [s2 ++ "." ++ "m4a"]⟩ ∧
      RPath.extension ⟨l ++ [s2 ++ "." ++ "m4a"]⟩ = some "m4a" := by
  obtain ⟨s2, hs2⟩ := fileStemName_isSome s
  have hd2 : s2.data ≠ [] := fileStemName_data_ne_nil s s2 hd hs2
  exact ⟨s2, hs2, setExtension_concat l s s2 hne hs2,
    extension_concat_m4a l s2 hd2⟩

/-! ## Discovery lemmas -/

lemma matchesFlac_extension (p : RPath) (hm : matchesFlac p = true) :
    ∃ e, p.extension = some e ∧ eqIgnoreAsciiCase e "flac" = true := by
  unfold matchesFlac at hm
  rcases hext : p.extension with _ | e
  · rw [hext] at hm
    cases hm
  · rw [hext] at hm
    exact ⟨e, rfl, hm⟩

lemma matchesFlac_fileStem (p : RPath) (hm : matchesFlac p = true) :
    ∃ s, p.fileStem = some s ∧ s.data ≠ [] := by
  obtain ⟨e, hext, -⟩ := matchesFlac_extension p hm
  unfold RPath.extension at hext
  rcases hfn : p.fileName with _ | nm
  · rw [hfn] at hext
    cases hext
  · rw [hfn] at hext
    obtain ⟨-, -, stem, hstem, hsd⟩ := extName_some nm e hext
    refine ⟨stem, ?_, hsd⟩
    unfold RPath.fileStem
    rw [hfn]
    exact hstem

lemma matchesFlac_concat (l : List String) (n : String)
    (hm : matchesFlac ⟨l ++ [n]⟩ = true) :
    n ≠ ".." ∧ n.data ≠ [] ∧
      ∃ stem, fileStemName n = some stem ∧ stem.data ≠ [] := by
  by_cases hdd : n = ".."
  · exfalso
    have hfn : RPath.fileName ⟨l ++ [n]⟩ = none := by
      simp [RPath.fileName, List.getLast?_concat, hdd]
    have hext : RPath.extension ⟨l ++ [n]⟩ = none := by
      simp [RPath.extension, hfn]
    rw [matchesFlac, hext] at hm
    cases hm
  · obtain ⟨e, hext, -⟩ := matchesFlac_extension _ hm
    rw [extension_concat l n hdd] at hext
    exact extName_some n e hext

lemma default_out_path_eq (p : RPath) (o : Option RPath) (s : String)
    (hs : p.fileStem = some s) :
    default_out_path p o =
      .ok ((match o with
            | some dir => dir.join ⟨[s]⟩
            | none => p.withFileName s).setExtension "m4a") := by
  unfold default_out_path
  rw [hs]

lemma map_to_out_ok (p input : RPath) (o : Option RPath)
    (hm : matchesFlac p = true) :
    ∃ q, map_to_out p input o = .ok q := by
  cases o with
  | some r => exact ⟨_, rfl⟩
  | none =>
    obtain ⟨s, hs, -⟩ := matchesFlac_fileStem p hm
    refine ⟨(p.withFileName s).setExtension "m4a", ?_⟩
    show default_out_path p none = _
    rw [default_out_path_eq p none s hs]

lemma walkCollect_ok (fs : FS) (input : RPath) (o : Option RPath)
    (l : List RPath) :
    ∃ v, walkCollect fs input o l = .ok v ∧
      v.map Prod.fst = l.filter (fun p => fs.isFile p && matchesFlac p) ∧
      ∀ t ∈ v, t.1 ∈ l ∧ fs.isFile t.1 = true ∧ matchesFlac t.1 = true ∧
        map_to_out t.1 input o = .ok t.2 := by
  induction l with
  | nil => exact ⟨[], rfl, rfl, by simp⟩
  | cons p rest ih =>
    obtain ⟨v, hv, hmap, hall⟩ := ih
    by_cases hc : (fs.isFile p && matchesFlac p) = true
    · have hm : matchesFlac p = true := (Bool.and_eq_true _ _ |>.mp hc).2
      have hf : fs.isFile p = true := (Bool.and_eq_true _ _ |>.mp hc).1
      obtain ⟨q, hq⟩ := map_to_out_ok p input o hm
      refine ⟨(p, q) :: v, ?_, ?_, ?_⟩
      · rw [walkCollect, if_pos hc, hq, hv]
      · rw [List.map_cons, hmap, List.filter_cons]
        simp [hc]
      · intro t ht
        rcases List.mem_cons.mp ht with h1 | h2
        · subst h1
          exact ⟨List.mem_cons_self p rest, hf, hm, hq⟩
        · obtain ⟨ha, hb, hcm, hd⟩ := hall t h2
          exact ⟨List.mem_cons_of_mem p ha, hb, hcm, hd⟩
    · have hcf : (fs.isFile p && matchesFlac p) = false :=
        Bool.not_eq_true _ |>.mp hc
      refine ⟨v, ?_, ?_, ?_⟩
      · rw [walkCollect, if_neg hc, hv]
      · rw [List.filter_cons_of_neg (by simp [hcf]), hmap]
      · intro t ht
        obtain ⟨ha, hb, hcm, hd⟩ := hall t ht
        exact ⟨List.mem_cons_of_mem p ha, hb, hcm, hd⟩

lemma collect_tasks_dir (fs : FS) (input : RPath) (o : Option RPath)
    (hnf : fs.isFile input = false) (hd : fs.isDir input = true) :
    collect_tasks fs input o = walkCollect fs input o (fs.walk input) := by
  rw [collect_tasks, if_neg (by simp [hnf]), if_pos hd]

lemma collect_tasks_file (fs : FS) (input : RPath) (o : Option RPath)
    (s : String) (hf : fs.isFile input = true) (hm : matchesFlac input = true)
    (hs : input.fileStem = some s) :
    collect_tasks fs input o =
      .ok [(input,
        (match o with
         | some dir => dir.join ⟨[s]⟩
         | none => input.withFileName s).setExtension "m4a")] := by
  rw [collect_tasks, if_pos hf, if_pos hm, default_out_path_eq input o s hs]

/-! ## Path-mapping structure lemmas -/

lemma isPrefixOf_append_self (l t : List String) :
    l.isPrefixOf (l ++ t) = true := by
  induction l with
  | nil => simp
  | cons a l ih => simp [List.isPrefixOf, ih]

lemma stripRoot_append (root rel : List String) :
    RPath.stripRoot ⟨root ++ rel⟩ ⟨root⟩ = some ⟨rel⟩ := by
  unfold RPath.stripRoot
  rw [if_pos (isPrefixOf_append_self root rel)]
  simp [List.drop_left]

lemma map_to_out_some_eq (file in_root r : RPath) :
    map_to_out file in_root (some r) =
      .ok ((r.join ((file.stripRoot in_root).getD file)).setExtension "m4a") :=
  rfl

lemma map_to_out_root_structure (input r : RPath) (sub : List String)
    (n : String)
    (hm : matchesFlac ⟨(input.components ++ sub) ++ [n]⟩ = true) :
    ∃ stem, fileStemName n = some stem ∧
      map_to_out ⟨(input.components ++ sub) ++ [n]⟩ input (some r) =
        .ok ⟨(r.components ++ sub) ++ [stem ++ "." ++ "m4a"]⟩ ∧
      RPath.extension ⟨(r.components ++ sub) ++ [stem ++ "." ++ "m4a"]⟩ =
        some "m4a" := by
  obtain ⟨hn, hnd, stem, hstem, hsd⟩ := matchesFlac_concat _ n hm
  refine ⟨stem, hstem, ?_, extension_concat_m4a _ stem hsd⟩
  have hstrip :
      RPath.stripRoot ⟨(input.components ++ sub) ++ [n]⟩ input =
        some ⟨sub ++ [n]⟩ := by
    have hl : (input.components ++ sub) ++ [n] =
        input.components ++ (sub ++ [n]) := by
      rw [List.append_assoc]
    rw [show (⟨(input.components ++ sub) ++ [n]⟩ : RPath) =
        ⟨input.components ++ (sub ++ [n])⟩ from by rw [hl]]
    exact stripRoot_append input.components (sub ++ [n])
  have hj : r.join ⟨sub ++ [n]⟩ = (⟨(r.components ++ sub) ++ [n]⟩ : RPath) := by
    unfold RPath.join
    rw [List.append_assoc]
  rw [map_to_out_some_eq, hstrip, Option.getD_some, hj,
    setExtension_concat (r.components ++ sub) n stem hn hstem]

lemma default_out_path_none_structure (l : List String) (n : String)
    (hm : matchesFlac ⟨l ++ [n]⟩ = true)
    (hstem_ne : ∀ s, fileStemName n = some s → s ≠ "..") :
    ∃ stem s2, fileStemName n = some stem ∧ fileStemName stem = some s2 ∧
      default_out_path ⟨l ++ [n]⟩ none = .ok ⟨l ++ [s2 ++ "." ++ "m4a"]⟩ ∧
      RPath.extension ⟨l ++ [s2 ++ "." ++ "m4a"]⟩ = some "m4a" := by
  obtain ⟨hn, hnd, stem, hstem, hsd⟩ := matchesFlac_concat l n hm
  have hsne : stem ≠ ".." := hstem_ne stem hstem
  obtain ⟨s2, hs2, hset, hext⟩ := setExtension_stem_m4a l stem hsne hsd
  refine ⟨stem, s2, hstem, hs2, ?_, hext⟩
  rw [default_out_path_eq ⟨l ++ [n]⟩ none stem
    (by rw [fileStem_concat l n hn]; exact hstem)]
  show Except.ok
      ((RPath.withFileName ⟨l ++ [n]⟩ stem).setExtension "m4a") = _
  rw [withFileName_concat l n stem hn, hset]

lemma default_out_path_root_structure (dir : RPath) (l : List String)
    (n : String) (hm : matchesFlac ⟨l ++ [n]⟩ = true)
    (hstem_ne : ∀ s, fileStemName n = some s → s ≠ "..") :
    ∃ stem s2, fileStemName n = some stem ∧ fileStemName stem = some s2 ∧
      default_out_path ⟨l ++ [n]⟩ (some dir) =
        .ok ⟨dir.components ++ [s2 ++ "." ++ "m4a"]⟩ ∧
      RPath.extension ⟨dir.components ++ [s2 ++ "." ++ "m4a"]⟩ =
        some "m4a" := by
  obtain ⟨hn, hnd, stem, hstem, hsd⟩ := matchesFlac_concat l n hm
  have hsne : stem ≠ ".." := hstem_ne stem hstem
  obtain ⟨s2, hs2, hset, hext⟩ :=
    setExtension_stem_m4a dir.components stem hsne hsd
  refine ⟨stem, s2, hstem, hs2, ?_, hext⟩
  rw [default_out_path_eq ⟨l ++ [n]⟩ (some dir) stem
    (by rw [fileStem_concat l n hn]; exact hstem)]
  show Except.ok ((RPath.setExtension ⟨dir.components ++ [stem]⟩ "m4a")) = _
  rw [hset]

/-! ## Task-processing lemmas -/

lemma process_one_skip (w : World) (i o : RPath) (verify dry_run : Bool)
    (h : w.outExists o = true) :
    process_one w i o OverwriteMode.Skip verify dry_run =
      (.ok (), noEffects) := by
  rw [process_one.eq_def, if_pos h]

lemma process_one_not_exists (w : World) (i o : RPath) (ow : OverwriteMode)
    (verify dry_run : Bool) (h : w.outExists o = false) :
    process_one w i o ow verify dry_run =
      afterResolve w i o verify dry_run noEffects := by
  rw [process_one.eq_def, if_neg (by simp [h])]

lemma afterResolve_dry (w : World) (i o : RPath) (verify : Bool)
    (eff : Effects) :
    afterResolve w i o verify true eff = (.ok (), eff) := rfl

lemma process_one_dry (w : World) (i o : RPath) (ow : OverwriteMode)
    (verify : Bool) :
    process_one w i o ow verify true = (.ok (), noEffects) := by
  by_cases h : w.outExists o = true
  · rw [process_one.eq_def, if_pos h]
    cases ow
    · rfl
    · rfl
    · rfl
  · have hf : w.outExists o = false := by simpa using h
    rw [process_one_not_exists w i o ow verify true hf, afterResolve_dry]

lemma process_one_prompt_no (w : World) (i o : RPath) (verify : Bool)
    (hex : w.outExists o = true)
    (hno : isYes (trimString w.stdinLine) = false) :
    process_one w i o OverwriteMode.Prompt verify false =
      (.ok (), ⟨true, false, false, 0⟩) := by
  rw [process_one.eq_def, if_pos hex]
  show (if isYes (trimString w.stdinLine) then _ else _) = _
  rw [if_neg (by simp [hno])]
  rfl

lemma process_one_prompt_yes (w : World) (i o : RPath) (verify : Bool)
    (hex : w.outExists o = true)
    (hyes : isYes (trimString w.stdinLine) = true) :
    process_one w i o OverwriteMode.Prompt verify false =
      afterResolve w i o verify false ⟨true, false, false, 0⟩ := by
  rw [process_one.eq_def, if_pos hex]
  show (if isYes (trimString w.stdinLine) then _ else _) = _
  rw [if_pos hyes]
  rfl

lemma convertAndVerify_called (w : World) (i o : RPath) (verify : Bool)
    (eff : Effects) :
    (convertAndVerify w i o verify eff).2.convertCalled = true := by
  rw [convertAndVerify]
  rcases hcv : run_ffmpeg_convert w i o with e | u
  · rfl
  · cases verify
    · rfl
    · rcases hvb : verify_bitperfect w i o with e | b
      · rfl
      · cases b
        · rfl
        · rfl

lemma afterResolve_convertCalled (w : World) (i o : RPath) (verify : Bool)
    (eff : Effects) (hmk : w.mkdirOk = true) :
    (afterResolve w i o verify false eff).2.convertCalled = true := by
  rw [afterResolve]
  by_cases hc : o.components.isEmpty = true
  · rw [if_neg (by simp), if_pos hc]
    exact convertAndVerify_called w i o verify eff
  · rw [if_neg (by simp), if_neg hc, if_pos hmk]
    exact convertAndVerify_called w i o verify _

lemma pcm_ok (w : World) (p : RPath) (h : List Nat)
    (hd : w.decodeResult p = some h) :
    pcm_sha256_from w p = .ok h := by
  rw [pcm_sha256_from, hd]

lemma pcm_err (w : World) (p : RPath) (hd : w.decodeResult p = none) :
    pcm_sha256_from w p = .error "ffmpeg a échoué lors du décodage PCM" := by
  rw [pcm_sha256_from, hd]

lemma verify_bitperfect_eq (w : World) (i o : RPath) (h1 h2 : List Nat)
    (hd1 : w.decodeResult i = some h1) (hd2 : w.decodeResult o = some h2) :
    verify_bitperfect w i o = .ok (decide (h1 = h2)) := by
  rw [verify_bitperfect, pcm_ok w i h1 hd1, pcm_ok w o h2 hd2]

lemma verify_bitperfect_err (w : World) (i o : RPath)
    (hd : w.decodeResult i = none ∨ w.decodeResult o = none) :
    verify_bitperfect w i o =
      .error "ffmpeg a échoué lors du décodage PCM" := by
  rcases hd with hd1 | hd2
  · rw [verify_bitperfect, pcm_err w i hd1]
  · rcases hd1 : w.decodeResult i with _ | h1
    · rw [verify_bitperfect, pcm_err w i hd1]
    · rw [verify_bitperfect, pcm_ok w i h1 hd1, pcm_err w o hd2]

lemma decodeInvocations_some (w : World) (p : RPath) (h : List Nat)
    (hd : w.decodeResult p = some h) : decodeInvocations w p = 2 := by
  rw [decodeInvocations, hd]

lemma convertAndVerify_mismatch (w : World) (i o : RPath) (eff : Effects)
    (h1 h2 : List Nat) (hcv : w.convertOk i o = true)
    (hd1 : w.decodeResult i = some h1) (hd2 : w.decodeResult o = some h2)
    (hne : h1 ≠ h2) :
    convertAndVerify w i o true eff =
      (.error "Vérification bit-perfect échouée",
       { eff with convertCalled := true, decodeCalls := 2 }) := by
  have hff : run_ffmpeg_convert w i o = .ok () := by
    rw [run_ffmpeg_convert, if_pos hcv]
  rw [convertAndVerify, hff, verify_bitperfect_eq w i o h1 h2 hd1 hd2,
    decide_eq_false hne, decodeInvocations_some w i h1 hd1]
  rfl

/-! ## Run-level lemmas -/

lemma ensure_ok (w : World) (ha : w.ffmpegAvailable = true) :
    ensure_ffmpeg_available w = .ok () := by
  rw [ensure_ffmpeg_available, if_pos ha]

lemma ensure_err (w : World) (ha : w.ffmpegAvailable = false) :
    ensure_ffmpeg_available w =
      .error "FFmpeg introuvable dans le PATH. Installe-le puis réessaie." := by
  rw [ensure_ffmpeg_available, if_neg (by simp [ha])]

lemma run_cli_tasks (w : World) (fs : FS) (input : RPath)
    (output : Option RPath) (verify : Bool) (ow : OverwriteMode) (dry : Bool)
    (tasks : List (RPath × RPath)) (ha : w.ffmpegAvailable = true)
    (hc : collect_tasks fs input output = .ok tasks) :
    run_cli w fs input output verify ow dry =
      if tasks.isEmpty then ⟨1, [], .error "Aucun fichier .flac trouvé"⟩
      else
        ⟨1, tasks.map fun t => process_one w t.1 t.2 ow verify dry,
          if 0 < ((tasks.map fun t =>
              process_one w t.1 t.2 ow verify dry).filter
              fun r => isErr r.1).length then
            .error (toString ((tasks.map fun t =>
              process_one w t.1 t.2 ow verify dry).filter
              fun r => isErr r.1).length ++ " conversion(s) en échec")
          else .ok ()⟩ := by
  rw [run_cli.eq_def, ensure_ok w ha, hc]

lemma run_cli_eq (w : World) (fs : FS) (input : RPath) (output : Option RPath)
    (verify : Bool) (ow : OverwriteMode) (dry : Bool)
    (tasks : List (RPath × RPath)) (rs : List (Except String Unit × Effects))
    (ha : w.ffmpegAvailable = true)
    (hc : collect_tasks fs input output = .ok tasks) (hne : tasks ≠ [])
    (hrs : rs = tasks.map fun t => process_one w t.1 t.2 ow verify dry) :
    run_cli w fs input output verify ow dry =
      ⟨1, rs,
        if 0 < (rs.filter fun r => isErr r.1).length then
          .error (toString (rs.filter fun r => isErr r.1).length ++
            " conversion(s) en échec")
        else .ok ()⟩ := by
  subst hrs
  have hie : ¬(tasks.isEmpty = true) := by simp [List.isEmpty_iff, hne]
  rw [run_cli_tasks w fs input output verify ow dry tasks ha hc, if_neg hie]

lemma run_cli_no_ffmpeg (w : World) (fs : FS) (input : RPath)
    (output : Option RPath) (verify : Bool) (ow : OverwriteMode) (dry : Bool)
    (ha : w.ffmpegAvailable = false) :
    run_cli w fs input output verify ow dry =
      ⟨1, [],
        .error "FFmpeg introuvable dans le PATH. Installe-le puis réessaie."⟩ := by
  rw [run_cli.eq_def, ensure_err w ha]

lemma run_cli_collect_err (w : World) (fs : FS) (input : RPath)
    (output : Option RPath) (verify : Bool) (ow : OverwriteMode) (dry : Bool)
    (e : String) (ha : w.ffmpegAvailable = true)
    (hc : collect_tasks fs input output = .error e) :
    run_cli w fs input output verify ow dry = ⟨1, [], .error e⟩ := by
  rw [run_cli.eq_def, ensure_ok w ha, hc]

lemma run_cli_empty (w : World) (fs : FS) (input : RPath)
    (output : Option RPath) (verify : Bool) (ow : OverwriteMode) (dry : Bool)
    (ha : w.ffmpegAvailable = true)
    (hc : collect_tasks fs input output = .ok []) :
    run_cli w fs input output verify ow dry =
      ⟨1, [], .error "Aucun fichier .flac trouvé"⟩ := by
  rw [run_cli_tasks w fs input output verify ow dry [] ha hc]
  rfl

lemma run_cli_ffmpegChecks (w : World) (fs : FS) (input : RPath)
    (output : Option RPath) (verify : Bool) (ow : OverwriteMode)
    (dry : Bool) :
    (run_cli w fs input output verify ow dry).ffmpegChecks = 1 := by
  by_cases ha : w.ffmpegAvailable = true
  · rcases hc : collect_tasks fs input output with e | tasks
    · rw [run_cli_collect_err w fs input output verify ow dry e ha hc]
    · rw [run_cli_tasks w fs input output verify ow dry tasks ha hc]
      by_cases hie : tasks.isEmpty = true
      · rw [if_pos hie]
      · rw [if_neg hie]
  · have ha2 : w.ffmpegAvailable = false := by simpa using ha
    rw [run_cli_no_ffmpeg w fs input output verify ow dry ha2]

lemma filter_err_nil {A : Type} (l : List A)
    (g : A → Except String Unit × Effects)
    (h : ∀ x ∈ l, isErr (g x).1 = false) :
    ((l.map g).filter fun r => isErr r.1) = [] := by
  induction l with
  | nil => rfl
  | cons a l ih =>
    rw [List.map_cons, List.filter_cons,
      if_neg (by simp [h a (List.mem_cons_self a l)])]
    exact ih fun x hx => h x (List.mem_cons_of_mem a hx)

lemma filter_err_len_zero (rs : List (Except String Unit × Effects)) :
    ((rs.filter fun r => isErr r.1).length = 0) ↔
      ∀ r ∈ rs, isErr r.1 = false := by
  rw [List.length_eq_zero, List.filter_eq_nil_iff]
  constructor
  · intro h r hr
    simpa using h r hr
  · intro h r hr
    simp [h r hr]

/-! ## Effect-preservation lemmas -/

lemma convertAndVerify_promptRead (w : World) (i o : RPath) (verify : Bool)
    (eff : Effects) :
    (convertAndVerify w i o verify eff).2.promptRead = eff.promptRead := by
  rw [convertAndVerify]
  rcases hcv : run_ffmpeg_convert w i o with e | u
  · rfl
  · cases verify
    · rfl
    · rcases hvb : verify_bitperfect w i o with e | b
      · rfl
      · cases b
        · rfl
        · rfl

lemma afterResolve_promptRead (w : World) (i o : RPath) (verify dry : Bool)
    (eff : Effects) :
    (afterResolve w i o verify dry eff).2.promptRead = eff.promptRead := by
  rw [afterResolve]
  by_cases hd : dry = true
  · rw [if_pos hd]
  · rw [if_neg hd]
    by_cases hc : o.components.isEmpty = true
    · rw [if_pos hc]
      exact convertAndVerify_promptRead w i o verify eff
    · rw [if_neg hc]
      by_cases hmk : w.mkdirOk = true
      · rw [if_pos hmk]
        exact convertAndVerify_promptRead w i o verify _
      · rw [if_neg hmk]

/-! ## Concrete fixtures used by witnesses and counterexamples -/

/-- World where ffmpeg is present, all destinations exist, the operator
answers `y`, and every external step succeeds. -/
def wYes : World :=
  ⟨true, fun _ => true, "y\n", true, fun _ _ => true, fun _ => some [1]⟩

/-- World identical to `wYes` except that the operator answers `OUI`. -/
def wOui : World :=
  ⟨true, fun _ => true, "OUI\n", true, fun _ _ => true, fun _ => some [1]⟩

/-- World identical to `wYes` except that the operator's raw line is
`y` followed by a form feed (U+000C, trimmed by Rust) and a newline. -/
def wFormFeed : World :=
  ⟨true, fun _ => true, "y
", true, fun _ _ => true, fun _ => some [1]⟩

/-- World where the ffmpeg availability probe fails. -/
def wNoFfmpeg : World :=
  ⟨false, fun _ => false, "", true, fun _ _ => true, fun _ => some [1]⟩

/-- World where no destination exists, the transcode succeeds, but source and
destination decode to different digests. -/
def wMismatch : World :=
  ⟨true, fun _ => false, "", true, fun _ _ => true,
   fun p => if p = ⟨["a.flac"]⟩ then some [1] else some [2]⟩

/-- World where no destination exists and the transcode subprocess always
exits nonzero. -/
def wConvFail : World :=
  ⟨true, fun _ => false, "", true, fun _ _ => false, fun _ => some [1]⟩

/-- Directory `in` holding three files matching the source extension in
various casings and one non-matching file. -/
def fsThreeOfFour : FS :=
  ⟨fun p => p ≠ ⟨["in"]⟩, fun p => p = ⟨["in"]⟩,
   fun _ => [⟨["in", "a.flac"]⟩, ⟨["in", "s", "B.FLAC"]⟩,
     ⟨["in", "c.FlAc"]⟩, ⟨["in", "d.mp3"]⟩]⟩

/-- Single regular file `d/x.flac`. -/
def fsSingle : FS :=
  ⟨fun p => p = ⟨["d", "x.flac"]⟩, fun _ => false, fun _ => []⟩

/-- Single regular file `d/...flac`, whose stem is `..`. -/
def fsCex : FS :=
  ⟨fun p => p = ⟨["d", "...flac"]⟩, fun _ => false, fun _ => []⟩

/-- A directory with no entries at all. -/
def fsEmptyDir : FS := ⟨fun _ => false, fun _ => true, fun _ => []⟩

/-- Directory `in` holding the single matching file `in/sub/a.FlAc`. -/
def fsStruct : FS :=
  ⟨fun p => p ≠ ⟨["in"]⟩, fun p => p = ⟨["in"]⟩,
   fun _ => [⟨["in", "sub", "a.FlAc"]⟩]⟩

/-! ## Claims -/

/-- C1: for a task whose destination already exists, with policy `Prompt` in
a simulated run (`dry_run = true`), `process_one` returns `Ok` having
performed no side effect at all: the outcome is a skip (no transcoder
invocation) and in particular no blocking stdin read from the operator
occurs (`promptRead = false`). -/
theorem c1_prompt_dry_run_skipped (w : World) (i o : RPath) (verify : Bool)
    (hex : w.outExists o = true) :
    process_one w i o OverwriteMode.Prompt verify true = (.ok (), noEffects) ∧
    (process_one w i o OverwriteMode.Prompt verify true).2.promptRead =
      false ∧
    (process_one w i o OverwriteMode.Prompt verify true).2.convertCalled =
      false := by
  refine ⟨process_one_dry w i o _ verify, ?_, ?_⟩ <;>
    rw [process_one_dry w i o _ verify] <;> rfl

/-- C1 witness at a concrete world whose destination exists. -/
theorem c1_witness :
    wYes.outExists ⟨["a.m4a"]⟩ = true ∧
    process_one wYes ⟨["a.flac"]⟩ ⟨["a.m4a"]⟩ OverwriteMode.Prompt false
      true = (.ok (), noEffects) :=
  ⟨rfl,
   (c1_prompt_dry_run_skipped wYes ⟨["a.flac"]⟩ ⟨["a.m4a"]⟩ false rfl).1⟩

/-- C2: with policy `Skip`, a task whose destination exists yields `Ok` with
no effects (executor never invoked); hence a rerun of the whole pipeline in
which every task's destination already exists performs zero transcodes (all
results are the effect-free `Ok`) and the final run result is success. -/
theorem c2_skip_policy_idempotent (w : World) (fs : FS) (input : RPath)
    (output : Option RPath) (verify dry : Bool)
    (tasks : List (RPath × RPath)) (ha : w.ffmpegAvailable = true)
    (hc : collect_tasks fs input output = .ok tasks) (hne : tasks ≠ [])
    (hex : ∀ t ∈ tasks, w.outExists t.2 = true) :
    (∀ i o, w.outExists o = true →
      process_one w i o OverwriteMode.Skip verify dry =
        (.ok (), noEffects)) ∧
    (run_cli w fs input output verify OverwriteMode.Skip dry).results =
      tasks.map (fun _ => (.ok (), noEffects)) ∧
    (run_cli w fs input output verify OverwriteMode.Skip dry).final =
      .ok () := by
  have hone : ∀ t ∈ tasks,
      process_one w t.1 t.2 OverwriteMode.Skip verify dry =
        (.ok (), noEffects) :=
    fun t ht => process_one_skip w t.1 t.2 verify dry (hex t ht)
  have hfil : ((tasks.map fun t =>
      process_one w t.1 t.2 OverwriteMode.Skip verify dry).filter
      fun r => isErr r.1) = [] := by
    apply filter_err_nil
    intro t ht
    rw [hone t ht]
    rfl
  rw [run_cli_eq w fs input output verify OverwriteMode.Skip dry tasks _
    ha hc hne rfl]
  refine ⟨fun i o h => process_one_skip w i o verify dry h, ?_, ?_⟩
  · exact List.map_congr_left hone
  · rw [hfil]
    rfl

/-- C2 witness: one discovered task, destination pre-existing. -/
theorem c2_witness :
    collect_tasks fsSingle ⟨["d", "x.flac"]⟩ none =
      .ok [(⟨["d", "x.flac"]⟩, ⟨["d", "x.m4a"]⟩)] ∧
    (run_cli wYes fsSingle ⟨["d", "x.flac"]⟩ none false OverwriteMode.Skip
      false).results = [(.ok (), noEffects)] ∧
    (run_cli wYes fsSingle ⟨["d", "x.flac"]⟩ none false OverwriteMode.Skip
      false).final = .ok () := by
  have h := c2_skip_policy_idempotent wYes fsSingle ⟨["d", "x.flac"]⟩ none
    false false [(⟨["d", "x.flac"]⟩, ⟨["d", "x.m4a"]⟩)] rfl rfl
    (List.cons_ne_nil _ _) (fun t ht => rfl)
  exact ⟨rfl, h.2.1, h.2.2⟩

/-- C9: in a simulated run (`dry_run = true`) every task short-circuits
right after overwrite resolution: `process_one` returns `Ok` with no
directory creation, no transcoder invocation, no decode invocation and no
prompt read; at run level every task still contributes one `Ok` result and
the run succeeds. -/
theorem c9_dry_run_no_side_effects :
    (∀ (w : World) (i o : RPath) (ow : OverwriteMode) (verify : Bool),
      process_one w i o ow verify true = (.ok (), noEffects)) ∧
    (∀ (w : World) (fs : FS) (input : RPath) (output : Option RPath)
      (ow : OverwriteMode) (verify : Bool) (tasks : List (RPath × RPath)),
      w.ffmpegAvailable = true → collect_tasks fs input output = .ok tasks →
      tasks ≠ [] →
      (run_cli w fs input output verify ow true).results =
        tasks.map (fun _ => (.ok (), noEffects)) ∧
      (run_cli w fs input output verify ow true).final = .ok ()) := by
  refine ⟨fun w i o ow verify => process_one_dry w i o ow verify, ?_⟩
  intro w fs input output ow verify tasks ha hc hne
  have hfil : ((tasks.map fun t =>
      process_one w t.1 t.2 ow verify true).filter
      fun r => isErr r.1) = [] := by
    apply filter_err_nil
    intro t ht
    rw [process_one_dry w t.1 t.2 ow verify]
    rfl
  rw [run_cli_eq w fs input output verify ow true tasks _ ha hc hne rfl]
  refine ⟨?_, ?_⟩
  · exact List.map_congr_left fun t ht => process_one_dry w t.1 t.2 ow verify
  · rw [hfil]
    rfl

/-- C9 witness: a concrete simulated run over one task. -/
theorem c9_witness :
    (run_cli wYes fsSingle ⟨["d", "x.flac"]⟩ none false OverwriteMode.Replace
      true).results = [(.ok (), noEffects)] ∧
    (run_cli wYes fsSingle ⟨["d", "x.flac"]⟩ none false OverwriteMode.Replace
      true).final = .ok () := by
  have h := c9_dry_run_no_side_effects.2 wYes fsSingle ⟨["d", "x.flac"]⟩ none
    OverwriteMode.Replace false [(⟨["d", "x.flac"]⟩, ⟨["d", "x.m4a"]⟩)] rfl
    rfl (List.cons_ne_nil _ _)
  exact ⟨h.1, h.2⟩

/-- C4: discovery over a directory succeeds and produces exactly one task,
in enumeration order, for each walked entry that is a regular file whose
extension case-insensitively matches `flac`; all other entries contribute
nothing. -/
theorem c4_dir_discovery_exact (fs : FS) (input : RPath)
    (out_root : Option RPath) (hdir : fs.isDir input = true)
    (hnf : fs.isFile input = false) :
    ∃ v, collect_tasks fs input out_root = .ok v ∧
      v.map Prod.fst =
        (fs.walk input).filter (fun p => fs.isFile p && matchesFlac p) := by
  obtain ⟨v, hv, hmap, -⟩ := walkCollect_ok fs input out_root (fs.walk input)
  refine ⟨v, ?_, hmap⟩
  rw [collect_tasks_dir fs input out_root hnf hdir]
  exact hv

/-- C4 witness: a directory with 3 matching files (in three extension
casings) and 1 non-matching file yields exactly 3 tasks. -/
theorem c4_witness :
    ∃ v, collect_tasks fsThreeOfFour ⟨["in"]⟩ none = .ok v ∧
      v.map Prod.fst = [⟨["in", "a.flac"]⟩, ⟨["in", "s", "B.FLAC"]⟩,
        ⟨["in", "c.FlAc"]⟩] ∧ v.length = 3 := by
  obtain ⟨v, hv, hmap⟩ :=
    c4_dir_discovery_exact fsThreeOfFour ⟨["in"]⟩ none rfl rfl
  refine ⟨v, hv, ?_, ?_⟩
  · rw [hmap]
    rfl
  · have h3 : (v.map Prod.fst).length = 3 := by
      rw [hmap]
      rfl
    simpa using h3

/-- C7: the ffmpeg availability probe runs exactly once per run; when it
fails the run aborts with the tool-unavailable error and an empty result
list (zero tasks attempted); when it succeeds but discovery yields no task,
the run aborts with the no-input-files error, again with zero tasks
attempted. -/
theorem c7_preconditions_fatal (w : World) (fs : FS) (input : RPath)
    (output : Option RPath) (verify : Bool) (ow : OverwriteMode)
    (dry : Bool) :
    (run_cli w fs input output verify ow dry).ffmpegChecks = 1 ∧
    (w.ffmpegAvailable = false →
      run_cli w fs input output verify ow dry =
        ⟨1, [],
          .error "FFmpeg introuvable dans le PATH. Installe-le puis réessaie."⟩) ∧
    (w.ffmpegAvailable = true → collect_tasks fs input output = .ok [] →
      run_cli w fs input output verify ow dry =
        ⟨1, [], .error "Aucun fichier .flac trouvé"⟩) :=
  ⟨run_cli_ffmpegChecks w fs input output verify ow dry,
   fun ha => run_cli_no_ffmpeg w fs input output verify ow dry ha,
   fun ha hc => run_cli_empty w fs input output verify ow dry ha hc⟩

/-- C7 witness: one run with ffmpeg missing, one with an empty directory. -/
theorem c7_witness :
    run_cli wNoFfmpeg fsEmptyDir ⟨["in"]⟩ none false OverwriteMode.Skip
      false =
      ⟨1, [],
        .error "FFmpeg introuvable dans le PATH. Installe-le puis réessaie."⟩ ∧
    run_cli wYes fsEmptyDir ⟨["in"]⟩ none false OverwriteMode.Skip false =
      ⟨1, [], .error "Aucun fichier .flac trouvé"⟩ :=
  ⟨(c7_preconditions_fatal wNoFfmpeg fsEmptyDir ⟨["in"]⟩ none false
      OverwriteMode.Skip false).2.1 rfl,
   (c7_preconditions_fatal wYes fsEmptyDir ⟨["in"]⟩ none false
      OverwriteMode.Skip false).2.2 rfl rfl⟩

/-- C10: every path matched by discovery has a file stem (`file_stem` is
`some`), so the invalid-filename error branch of `default_out_path` is
unreachable from discovery and `collect_tasks` always returns `Ok`. -/
theorem c10_discovery_never_invalid (fs : FS) (input : RPath)
    (out_root : Option RPath) :
    (∀ p : RPath, matchesFlac p = true → p.fileStem.isSome = true) ∧
    (∃ v, collect_tasks fs input out_root = .ok v) := by
  constructor
  · intro p hm
    obtain ⟨s, hs, -⟩ := matchesFlac_fileStem p hm
    rw [hs]
    rfl
  · by_cases hf : fs.isFile input = true
    · by_cases hm : matchesFlac input = true
      · obtain ⟨s, hs, -⟩ := matchesFlac_fileStem input hm
        refine ⟨[(input,
          (match out_root with
           | some dir => dir.join ⟨[s]⟩
           | none => input.withFileName s).setExtension "m4a")], ?_⟩
        rw [collect_tasks, if_pos hf, if_pos hm,
          default_out_path_eq input out_root s hs]
      · refine ⟨[], ?_⟩
        rw [collect_tasks, if_pos hf, if_neg hm]
    · by_cases hd : fs.isDir input = true
      · obtain ⟨v, hv, -, -⟩ := walkCollect_ok fs input out_root
          (fs.walk input)
        refine ⟨v, ?_⟩
        rw [collect_tasks_dir fs input out_root (by simpa using hf) hd]
        exact hv
      · refine ⟨[], ?_⟩
        rw [collect_tasks, if_neg hf, if_neg hd]

/-- C10 witness: a matched cased extension has a stem, and a concrete
discovery returns `Ok`. -/
theorem c10_witness :
    matchesFlac ⟨["d", "x.FlAc"]⟩ = true ∧
    (RPath.fileStem ⟨["d", "x.FlAc"]⟩).isSome = true ∧
    (∃ v, collect_tasks fsThreeOfFour ⟨["in"]⟩ none = .ok v) :=
  ⟨by decide,
   (c10_discovery_never_invalid fsThreeOfFour ⟨["in"]⟩ none).1
     ⟨["d", "x.FlAc"]⟩ (by decide),
   (c10_discovery_never_invalid fsThreeOfFour ⟨["in"]⟩ none).2⟩

lemma final_ok_iff (rs : List (Except String Unit × Effects)) :
    ((if 0 < (rs.filter fun r => isErr r.1).length then
        (.error (toString (rs.filter fun r => isErr r.1).length ++
          " conversion(s) en échec") : Except String Unit)
      else .ok ()) = .ok ()) ↔ ∀ r ∈ rs, isErr r.1 = false := by
  by_cases hL : 0 < (rs.filter fun r => isErr r.1).length
  · rw [if_pos hL]
    constructor
    · intro h
      cases h
    · intro hall
      exfalso
      have h0 := (filter_err_len_zero rs).mpr hall
      omega
  · rw [if_neg hL]
    have h0 : (rs.filter fun r => isErr r.1).length = 0 := by omega
    exact ⟨fun h => (filter_err_len_zero rs).mp h0, fun h => rfl⟩

/-- C5: the verifier returns `Ok` of the digest-equality boolean exactly
when both decodes succeed; a failing decode subprocess makes it return the
decode error; and a digest mismatch turns the task outcome into an error
even though the transcode itself was invoked and succeeded. -/
theorem c5_verifier_digest_spec (w : World) (i o : RPath) :
    (∀ h1 h2, w.decodeResult i = some h1 → w.decodeResult o = some h2 →
      verify_bitperfect w i o = .ok (decide (h1 = h2))) ∧
    ((w.decodeResult i = none ∨ w.decodeResult o = none) →
      ∃ e, verify_bitperfect w i o = .error e) ∧
    (∀ (ow : OverwriteMode) h1 h2, w.outExists o = false → w.mkdirOk = true →
      w.convertOk i o = true → w.decodeResult i = some h1 →
      w.decodeResult o = some h2 → h1 ≠ h2 →
      (∃ e, (process_one w i o ow true false).1 = .error e) ∧
      (process_one w i o ow true false).2.convertCalled = true) := by
  refine ⟨fun h1 h2 hd1 hd2 => verify_bitperfect_eq w i o h1 h2 hd1 hd2,
    fun hd => ⟨_, verify_bitperfect_err w i o hd⟩, ?_⟩
  intro ow h1 h2 hex hmk hcv hd1 hd2 hne
  rw [process_one_not_exists w i o ow true false hex, afterResolve]
  by_cases hc : o.components.isEmpty = true
  · rw [if_neg (by simp), if_pos hc,
      convertAndVerify_mismatch w i o noEffects h1 h2 hcv hd1 hd2 hne]
    exact ⟨⟨_, rfl⟩, rfl⟩
  · rw [if_neg (by simp), if_neg hc, if_pos hmk,
      convertAndVerify_mismatch w i o _ h1 h2 hcv hd1 hd2 hne]
    exact ⟨⟨_, rfl⟩, rfl⟩

/-- C5 witness: a concrete mismatching pair fails the task while the
transcoder was invoked. -/
theorem c5_witness :
    (∃ e, (process_one wMismatch ⟨["a.flac"]⟩ ⟨["a.m4a"]⟩ OverwriteMode.Skip
      true false).1 = .error e) ∧
    (process_one wMismatch ⟨["a.flac"]⟩ ⟨["a.m4a"]⟩ OverwriteMode.Skip
      true false).2.convertCalled = true :=
  (c5_verifier_digest_spec wMismatch ⟨["a.flac"]⟩ ⟨["a.m4a"]⟩).2.2
    OverwriteMode.Skip [1] [2] rfl rfl rfl rfl rfl (by decide)

/-- C6: once the preconditions pass, every discovered task is attempted
(the result list has one entry per task, task failures never abort the
run); the final result is success exactly when no task failed, and
otherwise it is the failure-state error carrying the failure count. -/
theorem c6_run_aggregates_all (w : World) (fs : FS) (input : RPath)
    (output : Option RPath) (verify : Bool) (ow : OverwriteMode) (dry : Bool)
    (tasks : List (RPath × RPath)) (ha : w.ffmpegAvailable = true)
    (hc : collect_tasks fs input output = .ok tasks) (hne : tasks ≠ []) :
    (run_cli w fs input output verify ow dry).results.length =
      tasks.length ∧
    ((run_cli w fs input output verify ow dry).final = .ok () ↔
      ∀ r ∈ (run_cli w fs input output verify ow dry).results,
        isErr r.1 = false) ∧
    ((run_cli w fs input output verify ow dry).final = .ok () ∨
      (run_cli w fs input output verify ow dry).final =
        .error (toString (((run_cli w fs input output verify ow
          dry).results.filter fun r => isErr r.1).length) ++
          " conversion(s) en échec")) := by
  rw [run_cli_eq w fs input output verify ow dry tasks _ ha hc hne rfl]
  refine ⟨List.length_map tasks _, final_ok_iff _, ?_⟩
  by_cases hL : 0 < ((tasks.map fun t =>
      process_one w t.1 t.2 ow verify dry).filter
      fun r => isErr r.1).length
  · right
    rw [if_pos hL]
  · left
    rw [if_neg hL]

/-- C6 witness: a run in which the single task fails (the transcoder exits
nonzero), yet it is attempted, collected, and reported as one failure. -/
theorem c6_witness :
    (run_cli wConvFail fsSingle ⟨["d", "x.flac"]⟩ none false
      OverwriteMode.Replace false).results.length = 1 ∧
    ¬((run_cli wConvFail fsSingle ⟨["d", "x.flac"]⟩ none false
      OverwriteMode.Replace false).final = .ok ()) := by
  have h := c6_run_aggregates_all wConvFail fsSingle ⟨["d", "x.flac"]⟩ none
    false OverwriteMode.Replace false
    [(⟨["d", "x.flac"]⟩, ⟨["d", "x.m4a"]⟩)] rfl rfl (List.cons_ne_nil _ _)
  refine ⟨h.1, ?_⟩
  intro hok
  have hmem : (process_one wConvFail ⟨["d", "x.flac"]⟩ ⟨["d", "x.m4a"]⟩
      OverwriteMode.Replace false false) ∈
      (run_cli wConvFail fsSingle ⟨["d", "x.flac"]⟩ none false
        OverwriteMode.Replace false).results :=
    List.mem_singleton.mpr rfl
  have hfalse := h.2.1.mp hok _ hmem
  revert hfalse
  decide

lemma rpath_eq (p : RPath) (l : List String) (h : p.components = l) :
    p = ⟨l⟩ := by
  rw [← h]

/-- C3 counterexample: the file `d/...flac` is discovered (its extension is
`flac`), but because its stem is `..`, `default_out_path` computes the
destination `d/..`, whose extension is `none`, not the canonical `m4a`. -/
theorem c3_counterexample :
    matchesFlac ⟨["d", "...flac"]⟩ = true ∧
    collect_tasks fsCex ⟨["d", "...flac"]⟩ none =
      .ok [(⟨["d", "...flac"]⟩, ⟨["d", ".."]⟩)] ∧
    RPath.extension ⟨["d", ".."]⟩ ≠ some "m4a" :=
  ⟨by decide, rfl, by decide⟩

/-- C3 (amended): for every discovered input file whose file stem is
neither `..` nor `.` (both make Rust's `with_file_name`/`set_extension`
pair misbehave: the re-parsed intermediate path loses its file name, so the
co-located destination keeps no `m4a` extension), the destination extension
is the canonical `m4a` regardless of the source extension's casing, and
when an output root is given the relative subdirectory structure under the
input root is preserved: the destination is the output root, then the
source's subdirectories, then the stem with extension `m4a`. -/
theorem c3_amended_out_paths :
    (∀ (fs : FS) (input : RPath) (out_root : Option RPath),
      fs.isDir input = true → fs.isFile input = false →
      (∀ p ∈ fs.walk input, ∃ sub n,
        p.components = (input.components ++ sub) ++ [n]) →
      (∀ p ∈ fs.walk input, ∀ s, p.fileStem = some s →
        s ≠ ".." ∧ s ≠ ".") →
      ∃ v, collect_tasks fs input out_root = .ok v ∧
        ∀ t ∈ v, t.2.extension = some "m4a" ∧
          ∀ r, out_root = some r → ∃ sub n stem,
            t.1.components = (input.components ++ sub) ++ [n] ∧
            fileStemName n = some stem ∧
            t.2.components =
              (r.components ++ sub) ++ [stem ++ "." ++ "m4a"]) ∧
    (∀ (fs : FS) (input : RPath) (out_root : Option RPath) (l : List String)
      (n : String),
      fs.isFile input = true → matchesFlac input = true →
      input.components = l ++ [n] →
      (∀ s, fileStemName n = some s → s ≠ ".." ∧ s ≠ ".") →
      ∃ q, collect_tasks fs input out_root = .ok [(input, q)] ∧
        q.extension = some "m4a") := by
  constructor
  · intro fs input out_root hdir hnf hwalk hstem
    obtain ⟨v, hv, hmap, hall⟩ :=
      walkCollect_ok fs input out_root (fs.walk input)
    refine ⟨v, ?_, ?_⟩
    · rw [collect_tasks_dir fs input out_root hnf hdir]
      exact hv
    · intro t ht
      obtain ⟨hmem, hf, hm, hmto⟩ := hall t ht
      obtain ⟨sub, n, hcomp⟩ := hwalk t.1 hmem
      have ht1 : t.1 = ⟨(input.components ++ sub) ++ [n]⟩ :=
        rpath_eq t.1 _ hcomp
      rw [ht1] at hm hmto
      cases out_root with
      | some r =>
        obtain ⟨stem, hstem2, hmt, hext⟩ :=
          map_to_out_root_structure input r sub n hm
        have ht2 : t.2 =
            ⟨(r.components ++ sub) ++ [stem ++ "." ++ "m4a"]⟩ :=
          Except.ok.inj (hmto.symm.trans hmt)
        refine ⟨?_, ?_⟩
        · rw [ht2]
          exact hext
        · intro r2 hr2
          cases hr2
          exact ⟨sub, n, stem, hcomp, hstem2, by rw [ht2]⟩
      | none =>
        have hn2 : n ≠ ".." := (matchesFlac_concat _ n hm).1
        have hstem_ne : ∀ s, fileStemName n = some s → s ≠ ".." := by
          intro s hs
          refine (hstem t.1 hmem s ?_).1
          rw [ht1, fileStem_concat _ n hn2]
          exact hs
        obtain ⟨stem, s2, hstem1, hs2, hdop, hext⟩ :=
          default_out_path_none_structure (input.components ++ sub) n hm
            hstem_ne
        have hmto2 : default_out_path
            ⟨(input.components ++ sub) ++ [n]⟩ none = .ok t.2 := hmto
        have ht2 : t.2 =
            ⟨(input.components ++ sub) ++ [s2 ++ "." ++ "m4a"]⟩ :=
          Except.ok.inj (hmto2.symm.trans hdop)
        refine ⟨?_, ?_⟩
        · rw [ht2]
          exact hext
        · intro r2 hr2
          cases hr2
  · intro fs input out_root l n hf hm hcomp hstem_ne
    have hi : input = ⟨l ++ [n]⟩ := rpath_eq input _ hcomp
    subst hi
    cases out_root with
    | none =>
      obtain ⟨stem, s2, hstem1, hs2, hdop, hext⟩ :=
        default_out_path_none_structure l n hm
          (fun s hs => (hstem_ne s hs).1)
      refine ⟨⟨l ++ [s2 ++ "." ++ "m4a"]⟩, ?_, hext⟩
      rw [collect_tasks, if_pos hf, if_pos hm, hdop]
    | some dir =>
      obtain ⟨stem, s2, hstem1, hs2, hdop, hext⟩ :=
        default_out_path_root_structure dir l n hm
          (fun s hs => (hstem_ne s hs).1)
      refine ⟨⟨dir.components ++ [s2 ++ "." ++ "m4a"]⟩, ?_, hext⟩
      rw [collect_tasks, if_pos hf, if_pos hm, hdop]

/-- C3 witness: a directory discovery with output root at a concrete
cased-extension file under a subdirectory. -/
theorem c3_witness :
    ∃ v, collect_tasks fsStruct ⟨["in"]⟩ (some ⟨["out"]⟩) = .ok v ∧
      ∀ t ∈ v, t.2.extension = some "m4a" := by
  obtain ⟨v, hv, hall⟩ :=
    c3_amended_out_paths.1 fsStruct ⟨["in"]⟩ (some ⟨["out"]⟩) rfl rfl
      (by
        intro p hp
        rw [show fsStruct.walk ⟨["in"]⟩ = [⟨["in", "sub", "a.FlAc"]⟩]
          from rfl] at hp
        rw [List.mem_singleton.mp hp]
        exact ⟨["sub"], "a.FlAc", rfl⟩)
      (by
        intro p hp s hs
        rw [show fsStruct.walk ⟨["in"]⟩ = [⟨["in", "sub", "a.FlAc"]⟩]
          from rfl] at hp
        rw [List.mem_singleton.mp hp] at hs
        rw [show RPath.fileStem ⟨["in", "sub", "a.FlAc"]⟩ = some "a"
          from by decide] at hs
        cases hs
        exact ⟨by decide, by decide⟩)
  exact ⟨v, hv, fun t ht => (hall t ht).1⟩

/-- C8 counterexample: the operator answer `OUI` matches the accepted
spelling `oui` case-insensitively, yet with policy `Prompt`, an existing
destination and an interactive run the task is skipped (`Ok` with
`convertCalled = false`): the accepted spellings are matched exactly, not
case-insensitively. -/
theorem c8_counterexample :
    eqIgnoreAsciiCase (trimString wOui.stdinLine) "oui" = true ∧
    wOui.outExists ⟨["a.m4a"]⟩ = true ∧
    process_one wOui ⟨["a.flac"]⟩ ⟨["a.m4a"]⟩ OverwriteMode.Prompt false
      false = (.ok (), ⟨true, false, false, 0⟩) :=
  ⟨by decide, rfl, by rfl⟩

/-- C8 (amended): with policy `Prompt`, an existing destination and an
interactive run, the prompt read happens and the executor is invoked
exactly when the trimmed answer is one of the exact tokens `y`, `Y`, `o`,
`O`, `oui`, `Oui` (so the one-letter tokens are accepted in both cases, but
matching is by exact spelling, not case-insensitive); every other answer
yields the skipped outcome. -/
theorem c8_amended_prompt_exact_tokens (w : World) (i o : RPath)
    (verify : Bool) (hex : w.outExists o = true) (hmk : w.mkdirOk = true) :
    (isYes (trimString w.stdinLine) = true →
      (process_one w i o OverwriteMode.Prompt verify
        false).2.promptRead = true ∧
      (process_one w i o OverwriteMode.Prompt verify
        false).2.convertCalled = true) ∧
    (isYes (trimString w.stdinLine) = false →
      process_one w i o OverwriteMode.Prompt verify false =
        (.ok (), ⟨true, false, false, 0⟩)) ∧
    (∀ s, isYes s = true ↔
      (s = "y" ∨ s = "Y" ∨ s = "o" ∨ s = "O" ∨ s = "oui" ∨ s = "Oui")) := by
  refine ⟨?_, fun hno => process_one_prompt_no w i o verify hex hno,
    fun s => ?_⟩
  · intro hyes
    rw [process_one_prompt_yes w i o verify hex hyes]
    exact ⟨by rw [afterResolve_promptRead],
      afterResolve_convertCalled w i o verify _ hmk⟩
  · simp [isYes]

/-- C8 witness: the answer `y` leads to a prompt read and an executor
invocation, and so does the answer `y` followed by a form feed and a
newline, both of which Rust's trim strips. -/
theorem c8_witness :
    isYes (trimString wYes.stdinLine) = true ∧
    (process_one wYes ⟨["a.flac"]⟩ ⟨["a.m4a"]⟩ OverwriteMode.Prompt false
      false).2.convertCalled = true ∧
    (process_one wYes ⟨["a.flac"]⟩ ⟨["a.m4a"]⟩ OverwriteMode.Prompt false
      false).2.promptRead = true ∧
    trimString wFormFeed.stdinLine = "y" ∧
    (process_one wFormFeed ⟨["a.flac"]⟩ ⟨["a.m4a"]⟩ OverwriteMode.Prompt
      false false).2.convertCalled = true := by
  have h := (c8_amended_prompt_exact_tokens wYes ⟨["a.flac"]⟩ ⟨["a.m4a"]⟩
    false rfl rfl).1 (by decide)
  have hff := (c8_amended_prompt_exact_tokens wFormFeed ⟨["a.flac"]⟩
    ⟨["a.m4a"]⟩ false rfl rfl).1 (by decide)
  exact ⟨by decide, h.2, h.1, by decide, hff.2⟩

end Flac2Alac

